import Mathlib

/-!
Shallow embedding of the core of the `avfork` crate, and proofs of the
specification claims about it.

The embedding follows the Rust source:
  * `src/lowlevel.rs` — `StackObjectAllocator::alloc_obj`, `avfork`;
  * `src/error.rs` — `toResult`, `SyscallError::{new, get_errno, get_msg}`;
  * `src/syscall.rs` — `execvel`, `fexecvel`;
  * `src/SignalFd.rs` — `ExitInfo` accessors, `SigChldFd::wait`.

Machine integers are modelled as `Nat`/`Int` with explicit `% 2^w`
where the source performs a wrapping `as` cast.
-/

namespace Avfork

/-! ### Arena allocator (`src/lowlevel.rs`)

`StackObjectAllocator` stores, inside its `UnsafeCell`, a copy of the
C-level `Stack_t` (irrelevant to the claims: it only carries the region
address for `allocate_obj_on_stack`) together with `alloc_obj_sz`, the
number of bytes already handed out; `reserved_obj_sz` is the object
capacity fixed at `Stack::reserve` time.  We keep the two counters. -/

structure StackObjectAllocator where
  alloc_obj_sz : Nat
  reserved_obj_sz : Nat
deriving Repr, DecidableEq

/-- Constructor used by `Stack::reserve`: the cell is initialised with
`(stack_impl, 0)`, i.e. zero allocated bytes. -/
def StackObjectAllocator.new (reserved_obj_sz : Nat) : StackObjectAllocator :=
  { alloc_obj_sz := 0, reserved_obj_sz := reserved_obj_sz }

/-- On success `Stack::reserve(_, reserved_obj_sz)` returns
`StackObjectAllocator::new(stack_impl, reserved_obj_sz)`; the C call
`reserve_stack` only affects the region, not the counters. -/
def Stack.reserve (reserved_obj_sz : Nat) : StackObjectAllocator :=
  StackObjectAllocator.new reserved_obj_sz

/-- Layout of a Rust type `T`: `mem::size_of::<T>()` and
`mem::align_of::<T>()` (the latter is always positive in Rust). -/
structure Layout where
  size : Nat
  align : Nat
deriving Repr, DecidableEq

/-- The size rounding performed at the top of `alloc_obj`:
`remnant = size % align; size + (if remnant != 0 { align - remnant } else { 0 })`. -/
def roundedSize (size align : Nat) : Nat :=
  let remnant := size % align
  size + (if remnant ≠ 0 then align - remnant else 0)

/-- An owning handle to one object placed in the arena
(`StackBox<T>` wraps the written slot; we record the stored value). -/
structure StackBox (T : Type) where
  value : T
deriving Repr, DecidableEq

/-- Embedding of `StackObjectAllocator::alloc_obj<T>`.  The Rust method
mutates the counter through the `UnsafeCell`; here the new allocator
state is returned alongside the `StackBox` on success, while the `Err`
branch performs no state change and hands the original value back. -/
def alloc_obj {T : Type} (a : StackObjectAllocator) (l : Layout) (obj : T) :
    Except T (StackObjectAllocator × StackBox T) :=
  let size := roundedSize l.size l.align
  if a.alloc_obj_sz + size > a.reserved_obj_sz then
    Except.error obj
  else
    Except.ok ({ a with alloc_obj_sz := a.alloc_obj_sz + size }, ⟨obj⟩)

/-- Run a sequence of `alloc_obj` calls (the stored values are
irrelevant to the counters, so each call stores `()`); returns the
final allocator state and the per-call success flags in order. -/
def runAllocs (a : StackObjectAllocator) : List Layout → StackObjectAllocator × List Bool
  | [] => (a, [])
  | l :: ls =>
    match alloc_obj a l () with
    | Except.error _ =>
      let r := runAllocs a ls
      (r.1, false :: r.2)
    | Except.ok (a1, _) =>
      let r := runAllocs a1 ls
      (r.1, true :: r.2)

/-- Aligned sizes of the successfully allocated objects of a sequence. -/
def successSizes (a : StackObjectAllocator) : List Layout → List Nat
  | [] => []
  | l :: ls =>
    match alloc_obj a l () with
    | Except.error _ => successSizes a ls
    | Except.ok (a1, _) => roundedSize l.size l.align :: successSizes a1 ls

theorem alloc_obj_error_iff {T : Type} (a : StackObjectAllocator) (l : Layout) (v : T) :
    alloc_obj a l v = Except.error v ↔
      a.reserved_obj_sz < a.alloc_obj_sz + roundedSize l.size l.align := by
  unfold alloc_obj
  by_cases h : a.alloc_obj_sz + roundedSize l.size l.align > a.reserved_obj_sz
  · simp [h]
  · simp [h]

theorem alloc_obj_ok {T : Type} (a : StackObjectAllocator) (l : Layout) (v : T)
    (h : a.alloc_obj_sz + roundedSize l.size l.align ≤ a.reserved_obj_sz) :
    alloc_obj a l v =
      Except.ok ({ a with alloc_obj_sz := a.alloc_obj_sz + roundedSize l.size l.align },
                 (⟨v⟩ : StackBox T)) := by
  unfold alloc_obj
  have h2 : ¬ (a.alloc_obj_sz + roundedSize l.size l.align > a.reserved_obj_sz) := by omega
  simp [h2]

theorem runAllocs_capacity (a : StackObjectAllocator) (ls : List Layout) :
    (runAllocs a ls).1.reserved_obj_sz = a.reserved_obj_sz := by
  induction ls generalizing a with
  | nil => rfl
  | cons l ls ih =>
    unfold runAllocs
    rcases h : alloc_obj a l () with _ | p
    · simpa using ih a
    · rw [alloc_obj] at h
      by_cases hc : a.alloc_obj_sz + roundedSize l.size l.align > a.reserved_obj_sz
      · simp [hc] at h
      · simp [hc] at h
        subst h
        simpa using ih _

theorem runAllocs_counter (a : StackObjectAllocator) (ls : List Layout) :
    (runAllocs a ls).1.alloc_obj_sz = a.alloc_obj_sz + (successSizes a ls).sum := by
  induction ls generalizing a with
  | nil => simp [runAllocs, successSizes]
  | cons l ls ih =>
    unfold runAllocs successSizes
    rcases h : alloc_obj a l () with _ | p
    · simpa using ih a
    · rw [alloc_obj] at h
      by_cases hc : a.alloc_obj_sz + roundedSize l.size l.align > a.reserved_obj_sz
      · simp [hc] at h
      · simp [hc] at h
        subst h
        simp [ih]
        omega

theorem runAllocs_bounded (a : StackObjectAllocator) (ls : List Layout)
    (h : a.alloc_obj_sz ≤ a.reserved_obj_sz) :
    (runAllocs a ls).1.alloc_obj_sz ≤ a.reserved_obj_sz := by
  induction ls generalizing a with
  | nil => simpa [runAllocs]
  | cons l ls ih =>
    unfold runAllocs
    rcases hstep : alloc_obj a l () with _ | p
    · simpa using ih a h
    · rw [alloc_obj] at hstep
      by_cases hc : a.alloc_obj_sz + roundedSize l.size l.align > a.reserved_obj_sz
      · simp [hc] at hstep
      · simp [hc] at hstep
        subst hstep
        have := ih ({ a with alloc_obj_sz := a.alloc_obj_sz + roundedSize l.size l.align })
          (by simpa using Nat.le_of_not_lt hc)
        simpa using this

theorem runAllocs_append (a : StackObjectAllocator) (l1 l2 : List Layout) :
    (runAllocs a (l1 ++ l2)).1 = (runAllocs (runAllocs a l1).1 l2).1 := by
  induction l1 generalizing a with
  | nil => simp [runAllocs]
  | cons l ls ih =>
    rcases h : alloc_obj a l () with _ | p
    · simp only [List.cons_append, runAllocs, h]
      exact ih a
    · simp only [List.cons_append, runAllocs, h]
      exact ih p.1

theorem runAllocs_mono (a : StackObjectAllocator) (ls : List Layout) :
    a.alloc_obj_sz ≤ (runAllocs a ls).1.alloc_obj_sz := by
  rw [runAllocs_counter]
  omega

theorem runAllocs_take (a : StackObjectAllocator) (l1 l2 : List Layout) :
    ((runAllocs a (l1 ++ l2)).2).take l1.length = (runAllocs a l1).2 := by
  induction l1 generalizing a with
  | nil => simp [runAllocs]
  | cons l ls ih =>
    rcases h : alloc_obj a l () with _ | p
    · simp only [List.cons_append, runAllocs, h, List.length_cons, List.take_succ_cons]
      simp [ih a]
    · simp only [List.cons_append, runAllocs, h, List.length_cons, List.take_succ_cons]
      simp [ih p.1]

theorem roundedSize_mult (size align : Nat) (h : 0 < align) :
    align ∣ roundedSize size align ∧ size ≤ roundedSize size align ∧
      roundedSize size align < size + align := by
  have hq := Nat.div_add_mod size align
  have hr : size % align < align := Nat.mod_lt _ h
  unfold roundedSize
  by_cases h0 : size % align = 0
  · simp only [h0, ne_eq, not_true_eq_false, if_false]
    exact ⟨by simpa using Nat.dvd_of_mod_eq_zero h0, by omega, by omega⟩
  · simp only [ne_eq, h0, not_false_eq_true, if_true]
    have hmul : align * (size / align + 1) = align * (size / align) + align := by ring
    refine ⟨⟨size / align + 1, by omega⟩, by omega, by omega⟩

theorem reserve_alloc_obj_sz (C : Nat) : (Stack.reserve C).alloc_obj_sz = 0 := rfl

theorem reserve_reserved_obj_sz (C : Nat) : (Stack.reserve C).reserved_obj_sz = C := rfl

/-- C1: for a `StackObjectAllocator` obtained from `Stack::reserve` with object
capacity `C`, and any finite sequence of `alloc_obj` calls: (1) the sum of the
aligned sizes of the successfully allocated objects never exceeds `C`; (2) the
internal `alloc_obj_sz` counter is monotonically non-decreasing across the
sequence; (3) a call whose aligned size would push the sum past the capacity
returns `Err` carrying the original value (and, the `Err` branch performing no
state change, the counter is unchanged); (4) the outcomes of the earlier calls
are unaffected by any later calls. -/
theorem arena_capacity_invariant (C : Nat) (reqs : List Layout) :
    (successSizes (Stack.reserve C) reqs).sum ≤ C ∧
    (∀ l1 l2 : List Layout,
      (runAllocs (Stack.reserve C) l1).1.alloc_obj_sz ≤
        (runAllocs (Stack.reserve C) (l1 ++ l2)).1.alloc_obj_sz) ∧
    (∀ (T : Type) (a : StackObjectAllocator) (l : Layout) (v : T),
      a.reserved_obj_sz < a.alloc_obj_sz + roundedSize l.size l.align →
      alloc_obj a l v = Except.error v) ∧
    (∀ l1 l2 : List Layout,
      ((runAllocs (Stack.reserve C) (l1 ++ l2)).2).take l1.length =
        (runAllocs (Stack.reserve C) l1).2) := by
  refine ⟨?_, ?_, ?_, ?_⟩
  · have hb := runAllocs_bounded (Stack.reserve C) reqs
      (by rw [reserve_alloc_obj_sz]; exact Nat.zero_le _)
    have hc := runAllocs_counter (Stack.reserve C) reqs
    rw [reserve_reserved_obj_sz] at hb
    rw [reserve_alloc_obj_sz] at hc
    omega
  · intro l1 l2
    rw [runAllocs_append]
    exact runAllocs_mono _ _
  · intro T a l v h
    exact (alloc_obj_error_iff a l v).2 h
  · intro l1 l2
    exact runAllocs_take _ l1 l2

theorem arena_capacity_invariant_witness :
    alloc_obj (⟨6, 8⟩ : StackObjectAllocator) (⟨4, 4⟩ : Layout) (7 : Nat) =
      Except.error 7 :=
  (arena_capacity_invariant 8 []).2.2.1 Nat ⟨6, 8⟩ ⟨4, 4⟩ 7 (by decide)

/-- C2: a single `alloc_obj::<T>(value)` call on an allocator with capacity
`reserved_obj_sz` and counter `alloc_obj_sz` computes the size of `T` rounded
up to the next multiple of its alignment, returns `Err(value)` with no state
change if and only if `alloc_obj_sz + rounded > reserved_obj_sz`, and
otherwise bumps the counter by exactly `rounded` and returns `Ok` wrapping the
newly written slot.  The embedding is a total function, so both outcomes
return normally (the source likewise has no panicking operation on either
path). -/
theorem alloc_obj_single_call {T : Type} (size align : Nat)
    (a : StackObjectAllocator) (v : T) (halign : 0 < align) :
    (align ∣ roundedSize size align ∧ size ≤ roundedSize size align ∧
      roundedSize size align < size + align) ∧
    (alloc_obj a ⟨size, align⟩ v = Except.error v ↔
      a.reserved_obj_sz < a.alloc_obj_sz + roundedSize size align) ∧
    (a.alloc_obj_sz + roundedSize size align ≤ a.reserved_obj_sz →
      alloc_obj a ⟨size, align⟩ v =
        Except.ok ({ a with alloc_obj_sz := a.alloc_obj_sz + roundedSize size align },
          (⟨v⟩ : StackBox T))) := by
  refine ⟨roundedSize_mult size align halign, alloc_obj_error_iff a ⟨size, align⟩ v, ?_⟩
  intro h
  exact alloc_obj_ok a ⟨size, align⟩ v h

theorem alloc_obj_single_call_witness :
    (0 : Nat) < 4 ∧
      alloc_obj (⟨2, 16⟩ : StackObjectAllocator) (⟨6, 4⟩ : Layout) (5 : Nat) =
        Except.ok ((⟨10, 16⟩ : StackObjectAllocator), (⟨5⟩ : StackBox Nat)) :=
  ⟨by decide,
   by simpa using (alloc_obj_single_call 6 4 ⟨2, 16⟩ (5 : Nat) (by decide)).2.2 (by decide)⟩

theorem runAllocs_u64_aux (n : Nat) (a : StackObjectAllocator)
    (hfit : a.alloc_obj_sz + 8 * n ≤ a.reserved_obj_sz)
    (hfull : a.reserved_obj_sz < a.alloc_obj_sz + 8 * n + 8) :
    (runAllocs a (List.replicate (n + 1) ⟨8, 8⟩)).2 =
      List.replicate n true ++ [false] := by
  have hr : roundedSize 8 8 = 8 := rfl
  induction n generalizing a with
  | zero =>
    have h : alloc_obj a (⟨8, 8⟩ : Layout) () = Except.error () :=
      (alloc_obj_error_iff _ _ _).2 (by rw [hr]; omega)
    simp [List.replicate, runAllocs, h]
  | succ n ih =>
    have h := alloc_obj_ok a (⟨8, 8⟩ : Layout) () (by rw [hr]; omega)
    rw [hr] at h
    have hstep : (runAllocs a (List.replicate (n + 1 + 1) ⟨8, 8⟩)).2 =
        true :: (runAllocs { a with alloc_obj_sz := a.alloc_obj_sz + 8 }
          (List.replicate (n + 1) ⟨8, 8⟩)).2 := by
      rw [List.replicate_succ]
      simp only [runAllocs, h]
    rw [hstep,
       ih { a with alloc_obj_sz := a.alloc_obj_sz + 8 } (by simp; omega) (by simp; omega),
       List.replicate_succ]
    rfl

/-- C8: allocating `u64` objects (size 8, alignment 8, aligned size 8) into an
allocator reserved with object capacity `8 * N` succeeds for exactly the first
`N` `alloc_obj` calls and the `(N+1)`-th call fails, returning the original
value (the `Err` outcome recorded as `false` in the success-flag trace). -/
theorem u64_fill_exact (N : Nat) (h : 1 ≤ N) :
    (runAllocs (Stack.reserve (8 * N)) (List.replicate (N + 1) ⟨8, 8⟩)).2 =
      List.replicate N true ++ [false] :=
  runAllocs_u64_aux N (Stack.reserve (8 * N))
    (by rw [reserve_alloc_obj_sz, reserve_reserved_obj_sz]; omega)
    (by rw [reserve_alloc_obj_sz, reserve_reserved_obj_sz]; omega)

theorem u64_fill_exact_witness :
    (runAllocs (Stack.reserve 16) (List.replicate 3 ⟨8, 8⟩)).2 =
      List.replicate 2 true ++ [false] :=
  u64_fill_exact 2 (by decide)

/-- C9: for a zero-sized type (`size_of::<T>() == 0`, hence aligned size 0),
`alloc_obj` on any allocator state reachable from `Stack::reserve` — including
capacity 0 and a fully consumed capacity — always returns `Ok` and leaves the
`alloc_obj_sz` counter unchanged. -/
theorem zst_alloc_always_ok {T : Type} (C : Nat) (reqs : List Layout)
    (align : Nat) (v : T) :
    alloc_obj (runAllocs (Stack.reserve C) reqs).1 ⟨0, align⟩ v =
      Except.ok ((runAllocs (Stack.reserve C) reqs).1, (⟨v⟩ : StackBox T)) := by
  have hz : roundedSize 0 align = 0 := by simp [roundedSize]
  have hb := runAllocs_bounded (Stack.reserve C) reqs
    (by rw [reserve_alloc_obj_sz]; exact Nat.zero_le _)
  have hcap := runAllocs_capacity (Stack.reserve C) reqs
  have hok := alloc_obj_ok (runAllocs (Stack.reserve C) reqs).1 ⟨0, align⟩ v
    (by rw [hz, hcap]; omega)
  simpa [hz] using hok

/-! ### Errno layer (`src/error.rs`) -/

/-- Embedding of `SyscallError`: `errno` holds the value of the `u32` field. -/
structure SyscallError where
  errno : Nat
deriving Repr, DecidableEq

/-- Embedding of `toResult`: `Ok(result as u64)` for `result >= 0`, else
`Err(SyscallError { errno: (-result) as u32 })`; the `i64` to `u32` cast
wraps modulo `2^32`. -/
def toResult (result : Int) : Except SyscallError Nat :=
  if 0 ≤ result then Except.ok result.toNat
  else Except.error ⟨((-result) % 2 ^ 32).toNat⟩

/-- Embedding of `SyscallError::new`. -/
def SyscallError.new (errno : Nat) : SyscallError := ⟨errno⟩

/-- Embedding of `SyscallError::get_errno`: `self.errno as i32` reinterprets
the `u32` bit pattern as a signed 32-bit value. -/
def SyscallError.get_errno (e : SyscallError) : Int :=
  if e.errno < 2 ^ 31 then (e.errno : Int) else (e.errno : Int) - 2 ^ 32

/-- Embedding of `SyscallError::get_msg`, parameterised by the generated
message table `msgs` (so `errno_msgs_sz = msgs.length`).  The result is
`none` exactly when the source would not return a value: for `errno = 0`
the branch `errno <= errno_msgs_sz` is taken and the index computation
`(errno as usize) - 1` underflows (an arithmetic panic in debug builds; in
release builds the wrapped index is out of bounds and the indexing itself
panics). -/
def get_msg (msgs : List String) (errno : Nat) : Option String :=
  if errno ≤ msgs.length then
    if 1 ≤ errno then msgs[errno - 1]? else none
  else
    some "Unknown errno code"

/-- C4: for a wrapped-syscall return value `r` — on Linux a syscall returns
`-errno` with `errno` in `1..=4095` on failure, encoded by the hypothesis
`-4096 < r` — `toResult r` is `Ok(r as u64)` when `r ≥ 0` and otherwise an
error whose `get_errno()` is exactly `-r`.  `toResult` is a total Lean
function of `r`, matching the panic-free source. -/
theorem toResult_spec (r : Int) (h : -4096 < r) :
    (0 ≤ r → toResult r = Except.ok r.toNat) ∧
    (r < 0 → toResult r = Except.error ⟨(-r).toNat⟩ ∧
      SyscallError.get_errno ⟨(-r).toNat⟩ = -r) := by
  constructor
  · intro hr
    simp [toResult, hr]
  · intro hr
    have h1 : ¬ (0 ≤ r) := by omega
    have h2 : (-r) % 2 ^ 32 = -r := Int.emod_eq_of_lt (by omega) (by omega)
    refine ⟨?_, ?_⟩
    · unfold toResult
      rw [if_neg h1, h2]
    have h3 : (-r).toNat < 2 ^ 31 := by omega
    simp only [SyscallError.get_errno, h3, if_pos]
    omega

theorem toResult_spec_witness :
    toResult (-2) = Except.error ⟨(-(-2 : Int)).toNat⟩ ∧
      SyscallError.get_errno ⟨(-(-2 : Int)).toNat⟩ = -(-2 : Int) :=
  (toResult_spec (-2) (by decide)).2 (by decide)

/-- C10 (amended): `get_msg` is safe (returns a message) exactly for
`errno ≥ 1` — for `errno` in `1..=errno_msgs_sz` it reads the table at index
`errno - 1`, for `errno > errno_msgs_sz` it returns the fixed string, and for
`errno = 0` (constructible through the public `SyscallError::new(0)`) the
index computation underflows.  A `SyscallError` produced by `toResult` from a
strictly negative return `r` has `errno ≥ 1` provided `-2^32 < r`; for
`r = -2^32` the `u32` cast truncates `-r` to `0` (the counterexample that
forces this amendment). -/
theorem get_msg_safety (msgs : List String) (errno : Nat) :
    ((get_msg msgs errno).isSome ↔ 1 ≤ errno) ∧
    (1 ≤ errno → errno ≤ msgs.length → get_msg msgs errno = msgs[errno - 1]?) ∧
    (msgs.length < errno → get_msg msgs errno = some "Unknown errno code") ∧
    (∀ r : Int, -(2 ^ 32) < r → r < 0 →
      ∀ e : SyscallError, toResult r = Except.error e → 1 ≤ e.errno) := by
  refine ⟨?_, ?_, ?_, ?_⟩
  · by_cases hle : errno ≤ msgs.length
    · by_cases h1 : 1 ≤ errno
      · have hlt : errno - 1 < msgs.length := by omega
        simp [get_msg, hle, h1, List.getElem?_eq_getElem hlt]
      · simp [get_msg, hle, h1]
    · simp [get_msg, hle]
      omega
  · intro h1 hle
    simp [get_msg, hle, h1]
  · intro hgt
    have hle : ¬ (errno ≤ msgs.length) := by omega
    simp [get_msg, hle]
  · intro r hlow hneg e he
    have h1 : ¬ (0 ≤ r) := by omega
    have h2 : (-r) % 2 ^ 32 = -r := Int.emod_eq_of_lt (by omega) (by omega)
    simp only [toResult, h1, if_neg, if_false, h2] at he
    have : e = ⟨(-r).toNat⟩ := by
      cases he
      rfl
    rw [this]
    simp only []
    omega

theorem get_msg_safety_witness :
    get_msg ["msg1", "msg2"] 2 = (["msg1", "msg2"] : List String)[2 - 1]? ∧
      (∀ e : SyscallError, toResult (-5) = Except.error e → 1 ≤ e.errno) :=
  ⟨(get_msg_safety ["msg1", "msg2"] 2).2.1 (by decide) (by decide),
   fun e he => (get_msg_safety [] 0).2.2.2 (-5) (by decide) (by decide) e he⟩

/-- C10 counterexample: `toResult (-(2^32))` produces a `SyscallError` whose
`errno` is `0`, not `≥ 1`: the claim that every error produced by `toResult`
from a strictly negative return has `errno ≥ 1` fails at `r = -(2^32)`,
because the `(-result) as u32` cast truncates. -/
theorem toResult_errno_zero_counterexample :
    toResult (-(2 ^ 32)) = Except.error ⟨0⟩ ∧ ¬ (1 ≤ (SyscallError.mk 0).errno) := by
  constructor
  · have h1 : ¬ (0 ≤ -(2 ^ 32 : Int)) := by decide
    have h2 : (-(-(2 ^ 32 : Int))) % 2 ^ 32 = 0 := by decide
    simp [toResult, h1, h2]
  · decide

/-! ### avfork (`src/lowlevel.rs`) -/

/-- Embedding of the `u64` to `i32` cast in `FdBox::from_raw(fd as i32)`. -/
def toI32 (n : Nat) : Int :=
  if n % 2 ^ 32 < 2 ^ 31 then ((n % 2 ^ 32 : Nat) : Int)
  else ((n % 2 ^ 32 : Nat) : Int) - 2 ^ 32

/-- Embedding of `avfork`.  The external trampoline `aspawn::aspawn` returns
`r` (the read end of the CLOEXEC pipe, or a negative errno) and writes the
child pid; the Rust body is then
`let fd = toResult(r as i64)?; Ok((FdBox::from_raw(fd as i32), pid))`. -/
def avfork (r : Int) (pid : Int) : Except SyscallError (Int × Int) :=
  match toResult r with
  | Except.error e => Except.error e
  | Except.ok fd => Except.ok (toI32 fd, pid)

/-- C3: `avfork` returns `Err(SyscallError)` with errno `e` if and only if
the trampoline returned `-e`; otherwise (a nonnegative return `r`) it returns
`Ok((r, pid))`, where `r` is the pipe read-end descriptor and `pid` the child
pid written by the trampoline.  The hypotheses encode the trampoline return
convention: `-4096 < r` (negative returns are `-errno`) and `r < 2^31`
(a file descriptor fits an `i32`).  The embedding adds no other failure path
and is total, matching the panic-free source. -/
theorem avfork_spec (r : Int) (pid : Int) (h1 : -4096 < r) (h2 : r < 2 ^ 31) :
    (∀ e : Nat, 1 ≤ e → (avfork r pid = Except.error ⟨e⟩ ↔ r = -(e : Int))) ∧
    (0 ≤ r → avfork r pid = Except.ok (r, pid)) := by
  by_cases hneg : r < 0
  · have hok := (toResult_spec r h1).2 hneg
    constructor
    · intro e he
      rw [avfork, hok.1]
      constructor
      · intro hEq
        injection hEq with hEq
        have : (-r).toNat = e := congrArg SyscallError.errno hEq
        omega
      · intro hEq
        have : (-r).toNat = e := by omega
        rw [this]
    · intro hr
      omega
  · have hr : 0 ≤ r := by omega
    have hok := (toResult_spec r h1).1 hr
    have hcast : toI32 r.toNat = r := by
      have hm : r.toNat % 2 ^ 32 = r.toNat := Nat.mod_eq_of_lt (by omega)
      simp only [toI32, hm]
      have : r.toNat < 2 ^ 31 := by omega
      simp only [this, if_pos]
      omega
    constructor
    · intro e he
      rw [avfork, hok]
      constructor
      · intro hEq
        cases hEq
      · intro hEq
        omega
    · intro _
      simp only [avfork, hok]
      rw [hcast]

theorem avfork_spec_witness :
    (avfork (-2) 9 = Except.error ⟨2⟩ ↔ (-2 : Int) = -((2 : Nat) : Int)) ∧
      avfork 5 9 = Except.ok (5, 9) :=
  ⟨(avfork_spec (-2) 9 (by decide) (by decide)).1 2 (by decide),
   (avfork_spec 5 9 (by decide) (by decide)).2 (by decide)⟩

/-! ### Exec search (`src/syscall.rs`)

Linux errno constants used by `execvel`/`fexecvel`. -/

def ENOENT : Nat := 2
def EACCES : Nat := 13
def ENODEV : Nat := 19
def ENOTDIR : Nat := 20
def ETIMEDOUT : Nat := 110
def ESTALE : Nat := 116

/-- Loop of `execvel`: each element of `attempts` is the errno with which
`psys_execve` failed for the corresponding search path, in candidate order
(a successful exec does not return).  Mirrors the `match err.get_errno()`
dispatch and the `got_eaccess` flag. -/
def execvelLoop (got_eaccess : Bool) : List Nat → Nat
  | [] => if got_eaccess then EACCES else ENOENT
  | e :: rest =>
    if e = EACCES then execvelLoop true rest
    else if e = ENOENT then execvelLoop got_eaccess rest
    else if e = ESTALE then execvelLoop got_eaccess rest
    else if e = ENOTDIR then execvelLoop got_eaccess rest
    else if e = ENODEV then execvelLoop got_eaccess rest
    else if e = ETIMEDOUT then execvelLoop got_eaccess rest
    else e

/-- Embedding of `execvel`: the flag starts as `false`. -/
def execvel (attempts : List Nat) : Nat := execvelLoop false attempts

/-- Loop of `fexecvel` over `FdPath` candidates (`execveat` attempts): the
source dispatch is identical to the `execvel` one. -/
def fexecvelLoop (got_eaccess : Bool) : List Nat → Nat
  | [] => if got_eaccess then EACCES else ENOENT
  | e :: rest =>
    if e = EACCES then fexecvelLoop true rest
    else if e = ENOENT then fexecvelLoop got_eaccess rest
    else if e = ESTALE then fexecvelLoop got_eaccess rest
    else if e = ENOTDIR then fexecvelLoop got_eaccess rest
    else if e = ENODEV then fexecvelLoop got_eaccess rest
    else if e = ETIMEDOUT then fexecvelLoop got_eaccess rest
    else e

/-- Embedding of `fexecvel`. -/
def fexecvel (attempts : List Nat) : Nat := fexecvelLoop false attempts

/-- The errnos on which the search continues with the next path. -/
def continuable (e : Nat) : Prop :=
  e = EACCES ∨ e = ENOENT ∨ e = ESTALE ∨ e = ENOTDIR ∨ e = ENODEV ∨ e = ETIMEDOUT

instance (e : Nat) : Decidable (continuable e) := by
  unfold continuable
  infer_instance

theorem execvelLoop_exhausted (l : List Nat) :
    ∀ g : Bool, (∀ x ∈ l, continuable x) →
      execvelLoop g l = if EACCES ∈ l ∨ g = true then EACCES else ENOENT := by
  induction l with
  | nil =>
    intro g _
    cases g <;> simp [execvelLoop]
  | cons x l ih =>
    intro g hall
    have hx : continuable x := hall x (List.mem_cons_self x l)
    have hl : ∀ y ∈ l, continuable y := fun y hy => hall y (List.mem_cons_of_mem x hy)
    rcases hx with h | h | h | h | h | h <;> subst h <;>
      simp [execvelLoop, ih _ hl, EACCES, ENOENT, ESTALE, ENOTDIR, ENODEV, ETIMEDOUT]

theorem fexecvelLoop_exhausted (l : List Nat) :
    ∀ g : Bool, (∀ x ∈ l, continuable x) →
      fexecvelLoop g l = if EACCES ∈ l ∨ g = true then EACCES else ENOENT := by
  induction l with
  | nil =>
    intro g _
    cases g <;> simp [fexecvelLoop]
  | cons x l ih =>
    intro g hall
    have hx : continuable x := hall x (List.mem_cons_self x l)
    have hl : ∀ y ∈ l, continuable y := fun y hy => hall y (List.mem_cons_of_mem x hy)
    rcases hx with h | h | h | h | h | h <;> subst h <;>
      simp [fexecvelLoop, ih _ hl, EACCES, ENOENT, ESTALE, ENOTDIR, ENODEV, ETIMEDOUT]

theorem execvelLoop_bail (pre : List Nat) (e : Nat) (rest : List Nat) :
    ∀ g : Bool, (∀ x ∈ pre, continuable x) → ¬ continuable e →
      execvelLoop g (pre ++ e :: rest) = e := by
  induction pre with
  | nil =>
    intro g _ he
    unfold continuable at he
    push_neg at he
    obtain ⟨h1, h2, h3, h4, h5, h6⟩ := he
    simp [execvelLoop, h1, h2, h3, h4, h5, h6]
  | cons x l ih =>
    intro g hall he
    have hx : continuable x := hall x (List.mem_cons_self x l)
    have hl : ∀ y ∈ l, continuable y := fun y hy => hall y (List.mem_cons_of_mem x hy)
    rcases hx with h | h | h | h | h | h <;> subst h <;>
      simp [execvelLoop, EACCES, ENOENT, ESTALE, ENOTDIR, ENODEV, ETIMEDOUT, ih _ hl he]

theorem fexecvelLoop_bail (pre : List Nat) (e : Nat) (rest : List Nat) :
    ∀ g : Bool, (∀ x ∈ pre, continuable x) → ¬ continuable e →
      fexecvelLoop g (pre ++ e :: rest) = e := by
  induction pre with
  | nil =>
    intro g _ he
    unfold continuable at he
    push_neg at he
    obtain ⟨h1, h2, h3, h4, h5, h6⟩ := he
    simp [fexecvelLoop, h1, h2, h3, h4, h5, h6]
  | cons x l ih =>
    intro g hall he
    have hx : continuable x := hall x (List.mem_cons_self x l)
    have hl : ∀ y ∈ l, continuable y := fun y hy => hall y (List.mem_cons_of_mem x hy)
    rcases hx with h | h | h | h | h | h <;> subst h <;>
      simp [fexecvelLoop, EACCES, ENOENT, ESTALE, ENOTDIR, ENODEV, ETIMEDOUT, ih _ hl he]

/-- C5 (amended): `execvel` tries the paths in order; on `ENOENT`, `EACCES`,
`ENOTDIR`, `ESTALE`, `ENODEV` or `ETIMEDOUT` it continues with the next path,
any other errno is returned immediately — independently of the remaining,
untried paths; when every path is exhausted it returns `EACCES` if **at least
one** attempt was permission-denied (not, as the claim states, only when every
attempt was), else `ENOENT`.  The same policy holds for `fexecvel`. -/
theorem exec_search_policy :
    (∀ attempts : List Nat, (∀ x ∈ attempts, continuable x) →
      execvel attempts = (if EACCES ∈ attempts then EACCES else ENOENT) ∧
      fexecvel attempts = (if EACCES ∈ attempts then EACCES else ENOENT)) ∧
    (∀ (pre : List Nat) (e : Nat) (rest : List Nat),
      (∀ x ∈ pre, continuable x) → ¬ continuable e →
      execvel (pre ++ e :: rest) = e ∧ fexecvel (pre ++ e :: rest) = e) := by
  constructor
  · intro attempts hall
    constructor
    · rw [execvel, execvelLoop_exhausted attempts false hall]
      simp
    · rw [fexecvel, fexecvelLoop_exhausted attempts false hall]
      simp
  · intro pre e rest hall he
    exact ⟨execvelLoop_bail pre e rest false hall he,
           fexecvelLoop_bail pre e rest false hall he⟩

theorem exec_search_policy_witness :
    (execvel [ENOENT, EACCES] = if EACCES ∈ [ENOENT, EACCES] then EACCES else ENOENT) ∧
      execvel ([ENOENT] ++ 22 :: [ENOENT]) = 22 :=
  ⟨(exec_search_policy.1 [ENOENT, EACCES] (by decide)).1,
   (exec_search_policy.2 [ENOENT] 22 [ENOENT] (by decide) (by decide)).1⟩

/-- C5 counterexample: with attempt outcomes `[ENOENT, EACCES]` not every
candidate was permission-denied, so the claim prescribes `ENOENT`; the code
returns `EACCES` (the `got_eaccess` flag is set by **any** `EACCES`). -/
theorem exec_search_every_eacces_counterexample :
    execvel [ENOENT, EACCES] = EACCES ∧
      ¬ (∀ x ∈ [ENOENT, EACCES], x = EACCES) ∧ EACCES ≠ ENOENT := by
  refine ⟨by decide, by decide, by decide⟩

/-! ### Exit notification (`src/SignalFd.rs`)

The wait-status helpers from the `libc` crate (Linux): the status is a
`c_int`; it is modelled by its 32-bit two-complement bit pattern as a `Nat`
(the helpers only inspect masked low bits, so the representation is exact
for negative statuses as well). -/

/-- Helper `WTERMSIG(status) = status & 0x7f`. -/
def WTERMSIG (s : Nat) : Nat := s &&& 127

/-- Helper `WIFEXITED(status) = (status & 0x7f) == 0`. -/
def WIFEXITED (s : Nat) : Bool := (s &&& 127) == 0

/-- Helper `WEXITSTATUS(status) = (status >> 8) & 0xff`. -/
def WEXITSTATUS (s : Nat) : Nat := (s >>> 8) &&& 255

/-- The `as i8` cast of a small nonnegative value (wraps modulo 256 into
the signed byte range). -/
def asI8 (n : Nat) : Int :=
  if n % 256 < 128 then ((n % 256 : Nat) : Int) else ((n % 256 : Nat) : Int) - 256

/-- Helper `WIFSIGNALED(status) = ((status & 0x7f) + 1) as i8 >= 2`. -/
def WIFSIGNALED (s : Nat) : Bool := decide (2 ≤ asI8 ((s &&& 127) + 1))

/-- Embedding of the immutable `ExitInfo` record built by the background
reap loop from `waitid` data: reporting uid, wait-status, user time and
system time.  The struct has no mutating method; the accessors below are its
only interface. -/
structure ExitInfo where
  uid : Nat
  wstatus : Nat
  utime : Int
  stime : Int
deriving Repr, DecidableEq

/-- Accessor `ExitInfo::get_uid`. -/
def ExitInfo.get_uid (e : ExitInfo) : Nat := e.uid

/-- Accessor `ExitInfo::get_utime`. -/
def ExitInfo.get_utime (e : ExitInfo) : Int := e.utime

/-- Accessor `ExitInfo::get_stime`. -/
def ExitInfo.get_stime (e : ExitInfo) : Int := e.stime

/-- Accessor `ExitInfo::get_exit_status`. -/
def ExitInfo.get_exit_status (e : ExitInfo) : Option Nat :=
  if WIFEXITED e.wstatus then some (WEXITSTATUS e.wstatus) else none

/-- Accessor `ExitInfo::get_term_sig`. -/
def ExitInfo.get_term_sig (e : ExitInfo) : Option Nat :=
  if WIFSIGNALED e.wstatus then some (WTERMSIG e.wstatus) else none

theorem WIFEXITED_iff (s : Nat) : WIFEXITED s = true ↔ s &&& 127 = 0 := by
  simp [WIFEXITED]

theorem WIFSIGNALED_iff (s : Nat) :
    WIFSIGNALED s = true ↔ 1 ≤ s &&& 127 ∧ s &&& 127 ≤ 126 := by
  have hle : s &&& 127 ≤ 127 := Nat.and_le_right
  unfold WIFSIGNALED asI8
  by_cases h : s &&& 127 = 127
  · rw [h]
    simp
  · have hlt : (s &&& 127) + 1 < 256 := by omega
    have h2 : ((s &&& 127) + 1) % 256 = (s &&& 127) + 1 := Nat.mod_eq_of_lt hlt
    have h3 : (s &&& 127) + 1 < 128 := by omega
    simp only [h2, h3, if_pos, decide_eq_true_eq]
    push_cast
    omega

/-- C6 (amended): for every `ExitInfo` record, `get_exit_status()` is
`Some(WEXITSTATUS(wstatus))` precisely when `WIFEXITED(wstatus)` holds and
`get_term_sig()` is `Some(WTERMSIG(wstatus))` precisely when
`WIFSIGNALED(wstatus)` holds; at most one of the two accessors returns
`Some`, and exactly one does **unless** `wstatus & 0x7f = 0x7f` (the stopped
encoding, e.g. the plain value 127), where both return `None` — the
unconditional "exactly one" of the claim fails there.  All accessors are
pure functions of the fields fixed at creation, so repeated calls return
identical values. -/
theorem exitinfo_decomposition (info : ExitInfo) :
    (info.get_exit_status =
      if WIFEXITED info.wstatus then some (WEXITSTATUS info.wstatus) else none) ∧
    (info.get_term_sig =
      if WIFSIGNALED info.wstatus then some (WTERMSIG info.wstatus) else none) ∧
    (info.get_uid = info.uid ∧ info.get_utime = info.utime ∧
      info.get_stime = info.stime) ∧
    ¬ (info.get_exit_status.isSome ∧ info.get_term_sig.isSome) ∧
    (info.wstatus &&& 127 ≠ 127 →
      (info.get_exit_status.isSome ∨ info.get_term_sig.isSome)) := by
  have hle : info.wstatus &&& 127 ≤ 127 := Nat.and_le_right
  have hex := WIFEXITED_iff info.wstatus
  have hsig := WIFSIGNALED_iff info.wstatus
  refine ⟨rfl, rfl, ⟨rfl, rfl, rfl⟩, ?_, ?_⟩
  · rintro ⟨h1, h2⟩
    by_cases hb : WIFEXITED info.wstatus
    · by_cases hc : WIFSIGNALED info.wstatus
      · have hm0 := hex.1 hb
        have hm1 := hsig.1 hc
        omega
      · simp [ExitInfo.get_term_sig, hc] at h2
    · simp [ExitInfo.get_exit_status, hb] at h1
  · intro hne
    by_cases hb : WIFEXITED info.wstatus
    · left
      simp [ExitInfo.get_exit_status, hb]
    · right
      have hm : ¬ info.wstatus &&& 127 = 0 := fun h0 => hb (hex.2 h0)
      have hc : WIFSIGNALED info.wstatus = true := hsig.2 ⟨by omega, by omega⟩
      simp [ExitInfo.get_term_sig, hc]

theorem exitinfo_decomposition_witness :
    ((ExitInfo.mk 1 9 2 3).wstatus &&& 127 ≠ 127) ∧
      ((ExitInfo.mk 1 9 2 3).get_exit_status.isSome ∨
        (ExitInfo.mk 1 9 2 3).get_term_sig.isSome) :=
  ⟨by decide, (exitinfo_decomposition (ExitInfo.mk 1 9 2 3)).2.2.2.2 (by decide)⟩

/-- C6 counterexample: the record with wait-status 127 has
`get_exit_status() = None` **and** `get_term_sig() = None`: its status does
not decompose into "exited with code" xor "terminated by signal", refuting
the unconditional exactly-one part of the claim. -/
theorem exitinfo_decomposition_counterexample :
    (ExitInfo.mk 0 127 0 0).get_exit_status = none ∧
      (ExitInfo.mk 0 127 0 0).get_term_sig = none := by
  refine ⟨by decide, by decide⟩

/-- Embedding of `SigChldFd`: only the pid-to-`ExitInfo` wait-map matters to
the claims; the map is the third-party `waitmap::WaitMap`, an association
map whose `wait` suspends until the key is present and then yields a
reference to the stored value.  Modelled as an association list with the
most recent insertion in front. -/
structure SigChldFd where
  map : List (Int × ExitInfo)
deriving Repr, DecidableEq

/-- Insertion performed by the background reap loop
(`self.map.insert(Pid(..), ExitInfo { .. })`) for one reaped child. -/
def SigChldFd.insertExit (s : SigChldFd) (pid : Int) (info : ExitInfo) : SigChldFd :=
  ⟨(pid, info) :: s.map⟩

/-- Embedding of `SigChldFd::wait`: once the map holds an entry for `pid`
the stored record is copied out (`break *(val.value())`) and returned
together with the resulting subsystem state; with no entry present the
caller stays suspended (`none`).  Neither this function nor anything else
in the source removes wait-map entries. -/
def SigChldFd.wait (s : SigChldFd) (pid : Int) : Option (ExitInfo × SigChldFd) :=
  match s.map.lookup pid with
  | some info => some (info, s)
  | none => none

/-- C7 (amended): after `wait(pid)` delivers an `ExitInfo`, the wait-map
still contains the entry for `pid` — delivery does **not** remove it (no
removal exists in the source), so a repeated `wait` for the same pid
returns the same record again. -/
theorem wait_keeps_entry (s : SigChldFd) (pid : Int) (info : ExitInfo)
    (s2 : SigChldFd) (h : s.wait pid = some (info, s2)) :
    s2 = s ∧ s2.map.lookup pid = some info ∧ s2.wait pid = some (info, s2) := by
  unfold SigChldFd.wait at h
  rcases hl : s.map.lookup pid with _ | v
  · rw [hl] at h
    cases h
  · rw [hl] at h
    injection h with h2
    rw [Prod.mk.injEq] at h2
    obtain ⟨rfl, rfl⟩ := h2
    refine ⟨rfl, hl, ?_⟩
    unfold SigChldFd.wait
    rw [hl]

theorem wait_keeps_entry_witness :
    ((⟨[(5, ExitInfo.mk 0 0 0 0)]⟩ : SigChldFd) = ⟨[(5, ExitInfo.mk 0 0 0 0)]⟩) ∧
      ((⟨[(5, ExitInfo.mk 0 0 0 0)]⟩ : SigChldFd).map.lookup 5 =
        some (ExitInfo.mk 0 0 0 0)) ∧
      ((⟨[(5, ExitInfo.mk 0 0 0 0)]⟩ : SigChldFd).wait 5 =
        some (ExitInfo.mk 0 0 0 0, ⟨[(5, ExitInfo.mk 0 0 0 0)]⟩)) :=
  wait_keeps_entry ⟨[(5, ExitInfo.mk 0 0 0 0)]⟩ 5 (ExitInfo.mk 0 0 0 0)
    ⟨[(5, ExitInfo.mk 0 0 0 0)]⟩ (by decide)

/-- C7 counterexample: insert the exit record for pid 5 (as the background
loop does on reap), deliver it through `wait(5)` — the entry for pid 5 is
still in the wait-map afterwards, refuting the claimed removal. -/
theorem wait_no_removal_counterexample :
    (SigChldFd.insertExit ⟨[]⟩ 5 (ExitInfo.mk 0 0 0 0)).wait 5 =
      some (ExitInfo.mk 0 0 0 0, SigChldFd.insertExit ⟨[]⟩ 5 (ExitInfo.mk 0 0 0 0)) ∧
      (SigChldFd.insertExit ⟨[]⟩ 5 (ExitInfo.mk 0 0 0 0)).map.lookup 5 =
        some (ExitInfo.mk 0 0 0 0) := by
  refine ⟨by decide, by decide⟩

end Avfork
